import Mathlib

/-!
# Verification of the workout-tracker logic core

A shallow embedding, in Lean 4, of the logic core of the workout-tracker
single-file React application (`src/App.jsx`).  The file contains two
duplicated variants of the app; where the two variants differ (units and
decimal quantities, category normalization, the coach analyzer) the
definitions below follow the second, richer variant, which is the one the
behavioural claims describe.

Modelling conventions:
* JavaScript numbers are modelled as `ℚ`; a JS number that may be
  non-finite (`NaN`, `±Infinity`) is modelled as `Option ℚ` with `none`
  standing for the non-finite values (the code only ever branches on
  `Number.isFinite`, never on which non-finite value it has).
* JS objects used as string-keyed dictionaries (`logsByDate`, the per-day
  logs) are modelled as association lists `List (String × _)`; property
  lookup is first-match lookup and property assignment replaces the
  first matching binding or appends.
* `Date.now()` is passed in explicitly as an integer parameter `now`.
* `uid()`-generated identifiers are abstracted as fixed fresh strings
  (their exact value never matters to any property proved here).
* `String(n)` rendering of the numeric maximum weight, `"BW"` and `"-"`
  are abstracted as the three injective constructors of `WeightDisplay`.
-/

/-! ## JS string primitives -/

/-- Whitespace test used by the model of `String.prototype.trim`. -/
def isJsWhitespace (c : Char) : Bool :=
  c = ' ' || c = '\t' || c = '\n' || c = '\r'

/-- Model of `String.prototype.trim` on the character list. -/
def jsTrimList (l : List Char) : List Char :=
  (((l.dropWhile isJsWhitespace).reverse.dropWhile isJsWhitespace)).reverse

/-- Model of `String.prototype.trim`. -/
def jsTrim (s : String) : String :=
  ⟨jsTrimList s.data⟩

/-- Model of `String.prototype.toUpperCase` (ASCII, which is all the code
compares against). -/
def jsToUpper (s : String) : String :=
  ⟨s.data.map Char.toUpper⟩

/-- Model of `String.prototype.toLowerCase` (ASCII). -/
def jsToLower (s : String) : String :=
  ⟨s.data.map Char.toLower⟩

/-- Does `hay` start with `needle`? (helper for the model of
`String.prototype.includes`). -/
def listStartsWith : List Char → List Char → Bool
  | [], _ => true
  | _ :: _, [] => false
  | a :: as, b :: bs => a = b && listStartsWith as bs

/-- Does `hay` contain `needle` as a contiguous substring? -/
def listContainsSub (needle : List Char) : List Char → Bool
  | [] => listStartsWith needle []
  | c :: t => listStartsWith needle (c :: t) || listContainsSub needle t

/-- Model of `String.prototype.includes`. -/
def jsIncludes (hay needle : String) : Bool :=
  listContainsSub needle.data hay.data

/-- Model of the JS string-truthiness/`||` idiom on strings:
`a || b` is `b` when `a` is empty, else `a`. -/
def jsOrString (a b : String) : String :=
  if a = "" then b else a

/-- JS string `<` (code-unit lexicographic comparison; on the ASCII
date keys the code compares, identical to code-point comparison). -/
def jsStrLtList : List Char → List Char → Bool
  | [], [] => false
  | [], _ :: _ => true
  | _ :: _, [] => false
  | a :: as, b :: bs => if a < b then true else if b < a then false else jsStrLtList as bs

/-- JS `a < b` on strings. -/
def jsStrLt (a b : String) : Bool := jsStrLtList a.data b.data

/-- JS `a <= b` on strings (equivalently `b >= a`): `!(b < a)`. -/
def jsStrLe (a b : String) : Bool := !(jsStrLt b a)

/-- The descending sort comparator `(a, b) => (a > b ? -1 : 1)` read as
the order relation "a sorts no later than b". -/
def descKeyOrder (a b : String) : Prop := jsStrLe b a = true

instance : DecidableRel descKeyOrder :=
  fun a b => inferInstanceAs (Decidable (jsStrLe b a = true))

/-! ## JS number primitives -/

/-- Digits of a decimal literal read as a natural number; `none` when some
character is not a digit. -/
def decDigitsToNat : List Char → Option Nat
  | l =>
    if l.all Char.isDigit then
      some (l.foldl (fun n c => n * 10 + (c.toNat - 48)) 0)
    else none

/-- Model of `Number(t)` on a trimmed, non-empty string, restricted to
plain decimal literals `[+-]digits[.digits]`: `none` models every
non-finite result (`NaN`, `±Infinity`); exotic but finite JS forms
(exponents, hex) are out of the model and also map to `none`. -/
def jsParseNumber (t : String) : Option ℚ :=
  let signAndRest : ℚ × List Char :=
    match t.data with
    | '+' :: r => (1, r)
    | '-' :: r => (-1, r)
    | r => (1, r)
  let intPart := signAndRest.2.takeWhile (fun c => c ≠ '.')
  let rest := signAndRest.2.dropWhile (fun c => c ≠ '.')
  let fracPart : Option (List Char) :=
    match rest with
    | [] => some []
    | _ :: r => if r.all (fun c => c ≠ '.') then some r else none
  match fracPart with
  | none => none
  | some frac =>
    if intPart = [] ∧ frac = [] then none
    else
      match decDigitsToNat intPart, decDigitsToNat frac with
      | some i, some f =>
        some (signAndRest.1 * ((i : ℚ) + (f : ℚ) / (10 : ℚ) ^ frac.length))
      | _, _ => none

/-- Model of `parseFloat(x.toFixed(2))`: round to two decimal places,
ties away from the nearer-to-zero candidate exactly as `toFixed` does
(for a tie ECMA picks the larger integer numerator on the absolute
value). -/
def roundTo2 (q : ℚ) : ℚ :=
  if q < 0 then -((⌊(-q) * 100 + 1 / 2⌋ : ℚ) / 100)
  else (⌊q * 100 + 1 / 2⌋ : ℚ) / 100

/-- Model of `x.toFixed(1)` used for the push/pull ratio message. -/
def jsToFixed1 (q : ℚ) : String :=
  if q < 0 then
    let m := ⌊(-q) * 10 + 1 / 2⌋
    "-" ++ toString (m / 10) ++ "." ++ toString (m % 10)
  else
    let m := ⌊q * 10 + 1 / 2⌋
    toString (m / 10) ++ "." ++ toString (m % 10)

/-- Model of `Math.floor` as a rational-valued operation. -/
def jsFloor (q : ℚ) : ℚ := (⌊q⌋ : ℚ)

/-! ## Association-list (JS object) primitives -/

/-- JS property assignment `o[k] = v` on an association list: the first
binding of `k` is replaced in place, otherwise the binding is appended. -/
def updAList {β : Type} : List (String × β) → String → β → List (String × β)
  | [], k, v => [(k, v)]
  | (a, b) :: t, k, v =>
    if a = k then (k, v) :: t else (a, b) :: updAList t k v

/-! ## Data model

`WSet` is one logged set (`{reps, weight}`), `LogEntry` one per-day
per-exercise entry.  `Workout` is the loosely-typed shape found in
persisted JSON; `RWorkout` is a workout after the load-time
normalization (guaranteed `exercises` list and `category` string). -/

structure WSet where
  reps : Option ℚ
  weight : String
  deriving DecidableEq

structure LogEntry where
  sets : Option (List WSet)
  notes : Option String
  deriving DecidableEq

abbrev DayLog := List (String × LogEntry)

abbrev Logs := List (String × DayLog)

structure Exercise where
  id : String
  name : String
  unit : Option String
  customUnitAbbr : Option String
  customUnitAllowDecimal : Option Bool
  deriving DecidableEq

structure Workout where
  id : Option String
  name : String
  category : Option String
  exercises : Option (List Exercise)
  deriving DecidableEq

structure RWorkout where
  id : Option String
  name : String
  category : String
  exercises : List Exercise
  deriving DecidableEq

structure Meta where
  createdAt : Option Int
  updatedAt : Option Int
  deriving DecidableEq

structure Program where
  workouts : Option (List Workout)
  deriving DecidableEq

/-- The loosely-typed persisted document (`none` fields model absent or
wrongly-typed JSON properties). -/
structure AppDoc where
  version : Option Int
  program : Option Program
  logsByDate : Option Logs
  meta : Option Meta
  deriving DecidableEq

/-- The in-memory application state produced by `loadState`. -/
structure AppState where
  version : Int
  workouts : List RWorkout
  logsByDate : Logs
  metaCreatedAt : Option Int
  metaUpdatedAt : Int
  deriving DecidableEq

/-! ## Units (`REP_UNITS`, `getUnit`) -/

structure UnitSpec where
  key : String
  label : String
  abbr : String
  allowDecimal : Bool
  deriving DecidableEq

def repsUnit : UnitSpec := ⟨ "reps", "Reps", "reps", false⟩

def REP_UNITS : List UnitSpec :=
  [ repsUnit,
    ⟨ "miles", "Miles", "mi", true⟩,
    ⟨ "yards", "Yards", "yd", false⟩,
    ⟨ "laps", "Laps", "laps", false⟩,
    ⟨ "steps", "Steps", "steps", false⟩,
    ⟨ "sec", "Seconds", "sec", true⟩,
    ⟨ "min", "Minutes", "min", true⟩,
    ⟨ "hrs", "Hours", "hrs", true⟩ ]

def getUnit (key : Option String) (exercise : Option Exercise) : UnitSpec :=
  match key, exercise with
  | some "custom", some e =>
    { key := "custom"
      label := jsOrString (e.customUnitAbbr.getD "") "custom"
      abbr := jsOrString (e.customUnitAbbr.getD "") "custom"
      allowDecimal := e.customUnitAllowDecimal.getD false }
  | k, _ => (REP_UNITS.find? (fun u => decide (some u.key = k))).getD repsUnit

/-! ## Date keys and weights -/

/-- Model of `isValidDateKey`: the regex `^\d{4}-\d{2}-\d{2}$`. -/
def isValidDateKey (s : String) : Bool :=
  match s.data with
  | [y1, y2, y3, y4, c1, m1, m2, c2, d1, d2] =>
    y1.isDigit && y2.isDigit && y3.isDigit && y4.isDigit &&
    c1 = '-' && m1.isDigit && m2.isDigit && c2 = '-' && d1.isDigit && d2.isDigit
  | _ => false

/-- Model of `inRangeInclusive`: lexicographic string comparison. -/
def inRangeInclusive (dateKey startKey endKey : String) : Bool :=
  jsStrLe startKey dateKey && jsStrLe dateKey endKey

/-- Model of `toNumberOrNull`: `null` (here `none`) for blank strings,
the bodyweight marker, and non-finite parses. -/
def toNumberOrNull (weightStr : String) : Option ℚ :=
  let t := jsTrim weightStr
  if t = "" then none
  else if jsToUpper t = "BW" then none
  else jsParseNumber t

/-- The display value of the max-weight column.  The constructors
abstract the strings `String(maxNum)`, `"BW"` and `"-"` produced by
`formatMaxWeight` (the three cases are injectively distinguishable). -/
inductive WeightDisplay where
  | numW (q : ℚ)
  | bwW
  | noDataW
  deriving DecidableEq

def formatMaxWeight (maxNum : Option ℚ) (hasBW : Bool) : WeightDisplay :=
  match maxNum with
  | some n => .numW n
  | none => if hasBW then .bwW else .noDataW

/-! ## Summary aggregator (`computeExerciseSummary`) -/

/-- Loop state of `computeExerciseSummary`. -/
structure SummAcc where
  totalReps : ℚ
  maxNum : Option ℚ
  hasBW : Bool
  deriving DecidableEq

/-- The inner per-set step of `computeExerciseSummary`. -/
def summStep (acc : SummAcc) (s : WSet) : SummAcc :=
  let acc1 : SummAcc :=
    match s.reps with
    | some r => { acc with totalReps := acc.totalReps + r }
    | none => acc
  let w := jsTrim s.weight
  if jsToUpper w = "BW" then { acc1 with hasBW := true }
  else
    match toNumberOrNull w with
    | some n =>
      { acc1 with
        maxNum := some (match acc1.maxNum with
          | none => n
          | some m => max m n) }
    | none => acc1

/-- JS `state.logsByDate[dk]?.[exerciseId]`. -/
def lookup2 (logs : Logs) (dk exId : String) : Option LogEntry :=
  (logs.lookup dk).bind (fun day => day.lookup exId)

/-- The per-date step of `computeExerciseSummary` (keys of a JS object
are unique, so iterating key/value pairs is the same as iterating keys
and re-indexing). -/
def summDayStep (exId startKey endKey : String) (acc : SummAcc) (p : String × DayLog) :
    SummAcc :=
  if isValidDateKey p.1 && inRangeInclusive p.1 startKey endKey then
    match p.2.lookup exId with
    | some entry =>
      match entry.sets with
      | some sets => sets.foldl summStep acc
      | none => acc
    | none => acc
  else acc

structure SummaryResult where
  totalReps : ℚ
  maxWeight : WeightDisplay
  deriving DecidableEq

/-- `computeExerciseSummary` of the unit-aware variant: the raw total is
floored, or rounded to two decimals when the unit allows decimals. -/
def computeExerciseSummary (st : AppState) (exerciseId startKey endKey : String)
    (unit : UnitSpec) : SummaryResult :=
  let acc := st.logsByDate.foldl (summDayStep exerciseId startKey endKey) ⟨0, none, false⟩
  let displayTotal := if unit.allowDecimal then roundTo2 acc.totalReps else jsFloor acc.totalReps
  ⟨displayTotal, formatMaxWeight acc.maxNum acc.hasBW⟩

/-! ## Log model (`saveLog`, `openLog`, `findMostRecentLogBefore`) -/

/-- The first exercise with the given id, scanning workouts in order. -/
def findExerciseInProgram (ws : List RWorkout) (exId : String) : Option Exercise :=
  ws.findSome? (fun w => w.exercises.find? (fun e => decide (e.id = exId)))

/-- Per-set normalization inside `saveLog`. -/
def cleanDraftSet (allowDecimal : Bool) (s : WSet) : WSet :=
  let repsClean : ℚ :=
    match s.reps with
    | some r => if r > 0 then (if allowDecimal then roundTo2 r else jsFloor r) else 0
    | none => 0
  let w := jsTrim s.weight
  let weight : String :=
    if jsToUpper w = "BW" then "BW" else ⟨w.data.filter (fun c => c.isDigit || c = '.')⟩
  ⟨some repsClean, jsOrString weight ""⟩

/-- The `(s) => s.reps > 0` filter predicate of `saveLog` (`> 0` on a JS
number is false for the non-finite values). -/
def isPositiveReps (s : WSet) : Bool :=
  match s.reps with
  | some r => decide (r > 0)
  | none => false

/-- The map-then-filter of `saveLog` over the draft sets. -/
def cleanDraftSets (allowDecimal : Bool) (draft : List WSet) : List WSet :=
  (draft.map (cleanDraftSet allowDecimal)).filter isPositiveReps

/-- The unit `saveLog` resolves for the logged exercise from the current
program. -/
def logUnitFor (st : AppState) (exerciseId : String) : UnitSpec :=
  match findExerciseInProgram st.workouts exerciseId with
  | some e => getUnit e.unit (some e)
  | none => getUnit (some "reps") none

/-- `saveLog`: normalizes the draft, replaces the `(date, exercise)`
entry, stores one placeholder set when every draft set was dropped. -/
def saveLog (st : AppState) (dateKey exerciseId : String) (draftSets : List WSet)
    (draftNotes : String) (now : Int) : AppState :=
  let logUnit := logUnitFor st exerciseId
  let cleanedSets := cleanDraftSets logUnit.allowDecimal draftSets
  let day := (st.logsByDate.lookup dateKey).getD []
  let entry : LogEntry :=
    ⟨some (if cleanedSets.isEmpty then [⟨some 0, "BW"⟩] else cleanedSets), some draftNotes⟩
  { st with
    logsByDate := updAList st.logsByDate dateKey (updAList day exerciseId entry)
    metaUpdatedAt := now }

/-- The per-key test inside `findMostRecentLogBefore`: the entry when
it exists and its `sets` is an array. -/
def getLoggedBefore (st : AppState) (exerciseId k : String) : Option LogEntry :=
  match lookup2 st.logsByDate k exerciseId with
  | some e => if e.sets.isSome then some e else none
  | none => none

/-- The scan of `findMostRecentLogBefore` over the sorted keys. -/
def scanPriorKeys (st : AppState) (exerciseId : String) : List String → Option LogEntry
  | [] => none
  | k :: ks =>
    match getLoggedBefore st exerciseId k with
    | some e => some e
    | none => scanPriorKeys st exerciseId ks

/-- `findMostRecentLogBefore`: well-formed keys strictly before
`beforeDateKey`, sorted descending, first hit. -/
def findMostRecentLogBefore (st : AppState) (exerciseId beforeDateKey : String) :
    Option LogEntry :=
  let keys := (st.logsByDate.map Prod.fst).filter
    (fun k => isValidDateKey k && jsStrLt k beforeDateKey)
  scanPriorKeys st exerciseId (keys.insertionSort descKeyOrder)

/-- The `existing ?? findMostRecentLogBefore(...)` lookup of `openLog`. -/
def openLogPrior (st : AppState) (exerciseId dateKey : String) : Option LogEntry :=
  match lookup2 st.logsByDate dateKey exerciseId with
  | some existing => some existing
  | none => findMostRecentLogBefore st exerciseId dateKey

/-- The raw draft sets of `openLog`: the prior sets when non-empty, else one
default empty set (`{reps: 0, weight: ""}` in this variant). -/
def openLogRawSets (prior : Option LogEntry) : List WSet :=
  match prior with
  | some p =>
    match p.sets with
    | some l =>
      if l.length ≠ 0 then l.map (fun s => ⟨some (s.reps.getD 0), s.weight⟩)
      else [⟨some 0, ""⟩]
    | none => [⟨some 0, ""⟩]
  | none => [⟨some 0, ""⟩]

/-- The BW/trim normalization that `openLog` applies to the draft sets. -/
def openLogDraftSets (prior : Option LogEntry) : List WSet :=
  (openLogRawSets prior).map (fun s =>
    if jsToUpper s.weight = "BW" then ⟨s.reps, "BW"⟩ else ⟨s.reps, jsTrim s.weight⟩)

/-! ## Document store (`loadState`, defaults, baseline repair) -/

def BASELINE_WORKOUT_ID : String := "baseline"

/-- `defaultBaselineExercises()` with the random `uid()` identifiers
abstracted as fixed fresh strings. -/
def defaultBaselineExercises : List Exercise :=
  [ ⟨ "ex_pushups", "Push Ups", some "reps", none, none⟩,
    ⟨ "ex_pullups", "Pull Ups", some "reps", none, none⟩,
    ⟨ "ex_squats", "Squats", some "reps", none, none⟩,
    ⟨ "ex_facepulls", "Face Pulls", some "reps", none, none⟩ ]

/-- The baseline workout injected by `ensureBaselineWorkout`. -/
def baselineWorkoutDefault : Workout :=
  ⟨some BASELINE_WORKOUT_ID, "Baseline", some "Baseline", some defaultBaselineExercises⟩

/-- `ensureBaselineWorkout` on the workout list (the surrounding
`program` object carries no other inspected field). -/
def ensureBaselineWorkout (workouts : List Workout) : List Workout :=
  if workouts.any (fun w => decide (w.id = some BASELINE_WORKOUT_ID)) then workouts
  else baselineWorkoutDefault :: workouts

/-- `defaultWorkouts()`, with `uid()` identifiers abstracted. -/
def defaultWorkouts : List RWorkout :=
  [ ⟨some BASELINE_WORKOUT_ID, "Baseline", "Baseline", defaultBaselineExercises⟩,
    ⟨some "w_a", "Workout A", "Workout",
      [ ⟨ "ex_incline", "Incline Bench Press", some "reps", none, none⟩,
        ⟨ "ex_row", "Row", some "reps", none, none⟩ ]⟩,
    ⟨some "w_b", "Workout B", "Workout",
      [ ⟨ "ex_ohp", "Overhead Press", some "reps", none, none⟩,
        ⟨ "ex_pulldown", "Pull Down", some "reps", none, none⟩ ]⟩ ]

/-- `makeDefaultState()` at time `now`. -/
def makeDefaultState (now : Int) : AppState :=
  ⟨1, defaultWorkouts, [], some now, now⟩

/-- The per-workout normalization inside `loadState`: guarantee an
`exercises` list and a non-blank `category` string. -/
def normalizeWorkout (w : Workout) : RWorkout :=
  { id := w.id
    name := w.name
    exercises := w.exercises.getD []
    category :=
      match w.category with
      | some c =>
        if jsTrim c ≠ "" then jsTrim c
        else if w.id = some BASELINE_WORKOUT_ID then "Baseline" else "Workout"
      | none => if w.id = some BASELINE_WORKOUT_ID then "Baseline" else "Workout" }

/-- `loadState`: `none` input models an absent or unparsable persisted
blob (both fall back to the default document); a `some` input is the
parsed object, repaired field by field. -/
def loadState (input : Option AppDoc) (now : Int) : AppState :=
  match input with
  | none => makeDefaultState now
  | some st =>
    let rawProgram := st.program.getD ⟨none⟩
    let rawWorkouts := rawProgram.workouts.getD []
    { version := st.version.getD 1
      workouts := (ensureBaselineWorkout rawWorkouts).map normalizeWorkout
      logsByDate := st.logsByDate.getD []
      metaCreatedAt := (st.meta.getD ⟨none, none⟩).createdAt
      metaUpdatedAt := now }

/-- Re-serialization of the in-memory state as a loose document (what
`JSON.stringify` would persist). -/
def looseOfWorkout (w : RWorkout) : Workout :=
  ⟨w.id, w.name, some w.category, some w.exercises⟩

def docOfState (st : AppState) : AppDoc :=
  ⟨some st.version, some ⟨some (st.workouts.map looseOfWorkout)⟩, some st.logsByDate,
    some ⟨st.metaCreatedAt, some st.metaUpdatedAt⟩⟩

/-! ## Program mutations (`deleteWorkout`, `deleteExercise`) -/

/-- `deleteWorkout` (the confirm dialog is modelled as accepted; the
baseline refusal and the not-found guard return the state unchanged). -/
def deleteWorkout (st : AppState) (workoutId : Option String) (now : Int) : AppState :=
  if workoutId = some BASELINE_WORKOUT_ID then st
  else if (st.workouts.find? (fun w => decide (w.id = workoutId))).isSome then
    { st with
      workouts := st.workouts.filter (fun w => decide (w.id ≠ workoutId))
      metaUpdatedAt := now }
  else st

/-- Update the first workout with the given id, as the in-place mutation
of the found workout does. -/
def updFirstWorkout : List RWorkout → Option String → (RWorkout → RWorkout) → List RWorkout
  | [], _, _ => []
  | w :: t, wid, f => if w.id = wid then f w :: t else w :: updFirstWorkout t wid f

/-- `deleteExercise` (confirm modelled as accepted). -/
def deleteExercise (st : AppState) (workoutId : Option String) (exerciseId : String)
    (now : Int) : AppState :=
  let target := ((st.workouts.find? (fun w => decide (w.id = workoutId))).map
    (fun w => w.exercises.find? (fun e => decide (e.id = exerciseId)))).join
  match target with
  | none => st
  | some _ =>
    { st with
      workouts := updFirstWorkout st.workouts workoutId
        (fun w => { w with exercises := w.exercises.filter (fun e => decide (e.id ≠ exerciseId)) })
      metaUpdatedAt := now }

/-! ## Import (`importJsonFromFile`) -/

def invalidJsonMsg : String := "❌ Invalid JSON file."

def missingFieldsMsg : String :=
  "❌ Import file missing required fields (program.workouts, logsByDate)."

/-- `importJsonFromFile` as a pure function of the parsed file content
(`none` models unparsable or non-object JSON) and the current time; the
confirm dialog is modelled as accepted.  `.error` carries the alert
message shown for a rejected file. -/
def importJsonFromFile (input : Option AppDoc) (now : Int) : Except String AppDoc :=
  match input with
  | none => .error invalidJsonMsg
  | some incoming =>
    match incoming.program with
    | none => .error missingFieldsMsg
    | some program =>
      match program.workouts, incoming.logsByDate with
      | some ws, some logs =>
        .ok ⟨some (incoming.version.getD 1),
          some ⟨some (ensureBaselineWorkout ws)⟩,
          some logs,
          some ⟨(incoming.meta.getD ⟨none, none⟩).createdAt, some now⟩⟩
      | _, _ => .error missingFieldsMsg

/-- The document held by the app after an import attempt: `setState` is
only reached on success, so a rejected import leaves the current
document untouched. -/
def stateAfterImport (current : AppDoc) (input : Option AppDoc) (now : Int) : AppDoc :=
  match importJsonFromFile input now with
  | .ok next => next
  | .error _ => current

/-! ## Coach analyzer -/

inductive MuscleGroup where
  | anteriorDelt
  | lateralDelt
  | posteriorDelt
  | chest
  | triceps
  | back
  | biceps
  | quads
  | hamstrings
  | glutes
  | calves
  | abs
  | unclassified
  deriving DecidableEq

/-- The `MUSCLE_GROUPS` keyword table, in source order. -/
def MUSCLE_GROUPS : List (MuscleGroup × List String) :=
  [ (.anteriorDelt, [ "front delt", "anterior delt", "overhead press", "military press", "shoulder press"]),
    (.lateralDelt, [ "side delt", "lateral delt", "lateral raise"]),
    (.posteriorDelt, [ "rear delt", "posterior delt", "face pull", "reverse fly", "reverse flye"]),
    (.chest, [ "chest", "bench press", "bench", "push up", "pushup", "dip", "fly", "flye", "pec"]),
    (.triceps, [ "tricep", "triceps", "extension", "skullcrusher", "pushdown"]),
    (.back, [ "back", "row", "pull up", "pullup", "chin up", "chinup", "lat", "pulldown", "pull down", "deadlift"]),
    (.biceps, [ "bicep", "biceps", "curl"]),
    (.quads, [ "quad", "squat", "leg press", "lunge"]),
    (.hamstrings, [ "hamstring", "leg curl", "rdl", "romanian"]),
    (.glutes, [ "glute", "hip thrust"]),
    (.calves, [ "calf", "calves", "raise"]),
    (.abs, [ "ab", "abs", "core", "plank", "crunch", "sit up", "situp"]) ]

/-- `classifyExercise`: every group with a keyword occurring in the
lower-cased name; `UNCLASSIFIED` when none matches. -/
def classifyExercise (exerciseName : String) : List MuscleGroup :=
  let lower := jsToLower exerciseName
  let found := MUSCLE_GROUPS.filterMap (fun gk =>
    if gk.2.any (fun keyword => jsIncludes lower keyword) then some gk.1 else none)
  if found.length > 0 then found else [.unclassified]

structure BalanceAnalysis where
  muscleGroupVolume : MuscleGroup → ℚ

/-- The `exerciseIdToName` map (later `Map.set` wins, as `updAList`
replaces in place). -/
def exerciseIdToName (ws : List RWorkout) : List (String × String) :=
  ws.foldl (fun m w => w.exercises.foldl (fun m2 e => updAList m2 e.id e.name) m) []

/-- `log.sets.reduce((sum, set) => sum + (Number(set.reps) || 0), 0)`. -/
def setsTotalReps (sets : List WSet) : ℚ :=
  sets.foldl (fun sum s => sum + s.reps.getD 0) 0

/-- Add `amount` to every group of `groups` in the volume table. -/
def addVolume (v : MuscleGroup → ℚ) (groups : List MuscleGroup) (amount : ℚ) :
    MuscleGroup → ℚ :=
  fun g => if g ∈ groups then v g + amount else v g

/-- `analyzeWorkoutBalance`: per-group rep volume over the date range.
The JS volume object with absent keys read as `|| 0` is modelled as a
total function with default `0`. -/
def analyzeWorkoutBalance (st : AppState) (rangeStart rangeEnd : String) :
    BalanceAnalysis :=
  let names := exerciseIdToName st.workouts
  let vol := st.logsByDate.foldl (fun v p =>
    if isValidDateKey p.1 && inRangeInclusive p.1 rangeStart rangeEnd then
      p.2.foldl (fun v2 q =>
        match names.lookup q.1 with
        | none => v2
        | some exName =>
          match q.2.sets with
          | none => v2
          | some sets => addVolume v2 (classifyExercise exName) (setsTotalReps sets)) v
    else v) (fun _ => 0)
  ⟨vol⟩

def allMuscleGroups : List MuscleGroup :=
  [ .anteriorDelt, .lateralDelt, .posteriorDelt, .chest, .triceps, .back, .biceps,
    .quads, .hamstrings, .glutes, .calves, .abs, .unclassified]

/-- `Object.values(muscleGroupVolume).reduce((a, b) => a + b, 0)`: with
the total-function model this is the sum over all groups (absent keys
contribute `0` either way). -/
def totalVolume (v : MuscleGroup → ℚ) : ℚ :=
  (allMuscleGroups.map v).sum

structure Suggestion where
  exercise : String
  muscleGroup : String
  deriving DecidableEq

/-- An insight record; `itype` models the JS field `type`. -/
structure Insight where
  itype : String
  severity : String
  title : String
  message : String
  suggestions : List Suggestion
  deriving DecidableEq

def getSuggestionsForMuscleGroup (group : String) : List Suggestion :=
  if group = "POSTERIOR_DELT" then
    [ ⟨ "Face Pulls", "POSTERIOR_DELT"⟩, ⟨ "Reverse Flyes", "POSTERIOR_DELT"⟩ ]
  else if group = "BACK" then
    [ ⟨ "Pull Ups", "BACK"⟩, ⟨ "Barbell Rows", "BACK"⟩, ⟨ "Lat Pulldowns", "BACK"⟩ ]
  else if group = "BICEPS" then
    [ ⟨ "Barbell Curls", "BICEPS"⟩, ⟨ "Hammer Curls", "BICEPS"⟩ ]
  else if group = "HAMSTRINGS" then
    [ ⟨ "Romanian Deadlifts", "HAMSTRINGS"⟩, ⟨ "Leg Curls", "HAMSTRINGS"⟩ ]
  else []

/-- `group.replace(/_/g, " ").toLowerCase()`. -/
def underscoreLower (s : String) : String :=
  jsToLower ⟨s.data.map (fun c => if c = '_' then ' ' else c)⟩

/-- The `importantGroups` of the neglect check, with the string keys the JS
object uses alongside the corresponding group. -/
def importantGroups : List (MuscleGroup × String) :=
  [ (.back, "BACK"), (.hamstrings, "HAMSTRINGS"), (.posteriorDelt, "POSTERIOR_DELT") ]

/-- The body of the neglected-group loop of `detectImbalances`. -/
def negStep (muscleGroupVolume : MuscleGroup → ℚ) (total : ℚ) (acc : List Insight)
    (gp : MuscleGroup × String) : List Insight :=
  let volume := muscleGroupVolume gp.1
  let percentage := volume / total * 100
  if percentage < 5 ∧ total > 100 ∧ acc.length < 2 then
    acc ++ [{ itype := "NEGLECTED"
              severity := "LOW"
              title := "📊 " ++ underscoreLower gp.2 ++ " volume is low"
              message := "You\u0027ve barely trained " ++ underscoreLower gp.2 ++
                " recently. Consider adding some direct work."
              suggestions := getSuggestionsForMuscleGroup gp.2 }]
  else acc

/-- `detectImbalances` (the insight detector; `detectInsights` in the
vocabulary of the spec). -/
def detectImbalances (muscleGroupVolume : MuscleGroup → ℚ) : List Insight :=
  let total := totalVolume muscleGroupVolume
  if total < 50 then []
  else
    let pushVolume := muscleGroupVolume .chest + muscleGroupVolume .anteriorDelt +
      muscleGroupVolume .triceps
    let pullVolume := muscleGroupVolume .back + muscleGroupVolume .posteriorDelt +
      muscleGroupVolume .biceps
    let insights1 : List Insight :=
      if pushVolume > pullVolume * (3 / 2) ∧ pullVolume > 0 then
        [{ itype := "IMBALANCE"
           severity := "HIGH"
           title := "⚠️ Push/Pull Imbalance Detected"
           message := "You\u0027re doing " ++ jsToFixed1 (pushVolume / pullVolume) ++
             "x more pushing than pulling. This can lead to shoulder issues and poor posture."
           suggestions := [ ⟨ "Barbell Rows", "BACK"⟩, ⟨ "Pull Ups", "BACK"⟩,
             ⟨ "Face Pulls", "POSTERIOR_DELT"⟩ ] }]
      else []
    let anteriorDeltV := muscleGroupVolume .anteriorDelt
    let posteriorDeltV := muscleGroupVolume .posteriorDelt
    let insights2 := insights1 ++
      (if anteriorDeltV > posteriorDeltV * 2 ∧ anteriorDeltV > 30 then
        [{ itype := "IMBALANCE"
           severity := "MEDIUM"
           title := "💡 Rear Delt Neglect"
           message := "Your front delts are getting way more work than rear delts. Add rear delt work for balanced shoulders."
           suggestions := getSuggestionsForMuscleGroup "POSTERIOR_DELT" }]
      else [])
    let insights3 := importantGroups.foldl (negStep muscleGroupVolume total) insights2
    let insights4 := insights3 ++
      (if insights3.length = 0 ∧ total > 100 then
        [{ itype := "POSITIVE"
           severity := "INFO"
           title := "✅ Training looks balanced!"
           message := "Your workout volume is well-distributed. Keep up the great work!"
           suggestions := [] }]
      else [])
    insights4.take 3

/-! ## Specification-side definitions

These definitions phrase, in the vocabulary of the specification, the
observable values the claims talk about; the theorems below relate them
to the embedded source functions. -/

/-- The baseline-presence predicate on a repaired workout list. -/
def hasBaselineWorkout (ws : List RWorkout) : Bool :=
  ws.any (fun w => decide (w.id = some BASELINE_WORKOUT_ID))

/-- The raw workout list carried by a loose input document. -/
def rawWorkoutsOfInput : Option AppDoc → List Workout
  | none => []
  | some st => (st.program.getD ⟨none⟩).workouts.getD []

/-- The sets one date contributes to a summary for one exercise. -/
def entrySets (exId : String) (p : String × DayLog) : List WSet :=
  match p.2.lookup exId with
  | some entry => entry.sets.getD []
  | none => []

/-- All sets logged for `exId` under a well-formed date key inside the
inclusive range, in iteration order. -/
def setsInRange (logs : Logs) (exId startKey endKey : String) : List WSet :=
  match logs with
  | [] => []
  | p :: t =>
    (if isValidDateKey p.1 && inRangeInclusive p.1 startKey endKey then entrySets exId p
     else []) ++ setsInRange t exId startKey endKey

/-- A set recorded with the bodyweight marker. -/
def isBWSet (s : WSet) : Bool := jsToUpper (jsTrim s.weight) = "BW"

/-- The strictly-numeric weights of a set list. -/
def numericWeights (sets : List WSet) : List ℚ :=
  sets.filterMap (fun s => toNumberOrNull s.weight)

/-- The sum of the finite quantities of a set list. -/
def sumFiniteReps (sets : List WSet) : ℚ :=
  (sets.filterMap WSet.reps).sum

/-- Combine two optional running maxima. -/
def optMaxQ (a b : Option ℚ) : Option ℚ :=
  match a, b with
  | none, c => c
  | some x, none => some x
  | some x, some y => some (max x y)

/-- The total-quantity display step: floored, or rounded to two decimal
places when the unit allows decimals. -/
def displayTotal (u : UnitSpec) (q : ℚ) : ℚ :=
  if u.allowDecimal then roundTo2 q else jsFloor q

/-- The claimed max-weight display: the numeric maximum when any
strictly-numeric weight exists, else the bodyweight marker when any
bodyweight set was seen, else the no-data sentinel. -/
def specMaxWeight (sets : List WSet) : WeightDisplay :=
  match (numericWeights sets).max? with
  | some m => .numW m
  | none => if sets.any isBWSet then .bwW else .noDataW

/-- Specification-side quantity normalization of `saveLog`: clamped to
`≥ 0` and floored, or rounded to two decimal places when the unit allows
decimals (non-finite input counts as zero). -/
def specCleanQuantity (allowDecimal : Bool) (reps : Option ℚ) : ℚ :=
  match reps with
  | some r => max 0 (if allowDecimal then roundTo2 r else jsFloor r)
  | none => 0

/-- Specification-side weight normalization of `saveLog`: the literal
bodyweight marker, or the weight stripped to its numeric characters. -/
def specNormalizeWeight (w : String) : String :=
  if jsToUpper (jsTrim w) = "BW" then "BW"
  else ⟨(jsTrim w).data.filter (fun c => c.isDigit || c = '.')⟩

/-- Specification-side draft normalization of `saveLog`: normalize each
set, discard non-positive quantities, and substitute one placeholder
bodyweight set when everything was discarded. -/
def specNormalizeDraft (allowDecimal : Bool) (draft : List WSet) : List WSet :=
  let cleaned := (draft.map (fun s =>
    (⟨some (specCleanQuantity allowDecimal s.reps), specNormalizeWeight s.weight⟩ : WSet))).filter
    isPositiveReps
  if cleaned.isEmpty then [⟨some 0, "BW"⟩] else cleaned

/-- A string whose characters are all numeric (digits or a dot). -/
def isNumericOnlyStr (s : String) : Bool :=
  s.data.all (fun c => c.isDigit || c = '.')

/-- The well-formed date keys strictly before `dateKey` that hold a log
with a sets array for this exercise. -/
def priorHitKeys (st : AppState) (exerciseId dateKey : String) : List String :=
  ((st.logsByDate.map Prod.fst).filter
    (fun k => isValidDateKey k && jsStrLt k dateKey)).filter
    (fun k => (getLoggedBefore st exerciseId k).isSome)

/-- `pushVolume` of the push/pull check. -/
def pushVolumeOf (v : MuscleGroup → ℚ) : ℚ :=
  v .chest + v .anteriorDelt + v .triceps

/-- `pullVolume` of the push/pull check. -/
def pullVolumeOf (v : MuscleGroup → ℚ) : ℚ :=
  v .back + v .posteriorDelt + v .biceps

/-- One step of the running "greatest key" computation. -/
def maxKeyStep (acc : Option String) (k : String) : Option String :=
  match acc with
  | none => some k
  | some m => if jsStrLt m k = true then some k else some m

/-- The greatest key of a list under the JS string order. -/
def maxKey? (l : List String) : Option String :=
  l.foldl maxKeyStep none

/-- The import acceptance condition as the claim states it: the parsed
value is an object containing an object `program` with an array
`program.workouts` and an object `logsByDate`. -/
def isValidImport : Option AppDoc → Bool
  | none => false
  | some d =>
    match d.program with
    | some p => p.workouts.isSome && d.logsByDate.isSome
    | none => false

/-! ## Concrete example data used by the witnesses -/

/-- A partial input document whose program lacks the baseline workout. -/
def c4DocExample : AppDoc :=
  ⟨none, some ⟨some [⟨some "w_x", "My Workout", none, none⟩]⟩, none, none⟩

/-- An import file with a program and workout array but no `logsByDate`. -/
def c7DocExample : AppDoc :=
  ⟨none, some ⟨some []⟩, none, none⟩

/-- The volume mapping of the spec example: push 130, pull 30. -/
def c8VolumesExample : MuscleGroup → ℚ :=
  fun g =>
    match g with
    | .chest => 100
    | .anteriorDelt => 20
    | .triceps => 10
    | .back => 20
    | .posteriorDelt => 5
    | .biceps => 5
    | _ => 0

/-- A state whose only in-range sets are one placeholder set. -/
def c9StateExample : AppState :=
  ⟨1, [], [( "2024-01-02", [( "e1", ⟨some [⟨some 0, "BW"⟩], some ""⟩)])], none, 0⟩

/-- A state logging 7 + 8 reps of an exercise named "Lateral Raise". -/
def c10StateExample : AppState :=
  ⟨1, [⟨some "w", "W", "Workout", [⟨ "e1", "Lateral Raise", some "reps", none, none⟩]⟩],
    [( "2024-01-02", [( "e1", ⟨some [⟨some 7, ""⟩, ⟨some 8, ""⟩], some ""⟩)])], none, 0⟩

/-- A state with two prior logged dates for exercise `e1`. -/
def c3StateExample : AppState :=
  ⟨1, [],
    [( "2024-01-02", [( "e1", ⟨some [⟨some 1, ""⟩], some ""⟩)]),
     ( "2024-01-04", [( "e1", ⟨some [⟨some 2, ""⟩], some ""⟩)])], none, 0⟩

/-! # Helper lemmas -/

theorem dropWhile_dropWhile {α : Type} (p : α → Bool) (l : List α) :
    (l.dropWhile p).dropWhile p = l.dropWhile p := by
  induction l with
  | nil => rfl
  | cons a t ih =>
    by_cases h : p a
    · simp [List.dropWhile_cons, h, ih]
    · simp [List.dropWhile_cons, h]

theorem dropWhile_eq_self_of_prefix {α : Type} (p : α → Bool) {x y : List α}
    (hx : x.dropWhile p = x) (hxy : y <+: x) : y.dropWhile p = y := by
  cases y with
  | nil => rfl
  | cons a t =>
    obtain ⟨s, hs⟩ := hxy
    subst hs
    rw [List.dropWhile_eq_self_iff] at hx ⊢
    intro _
    simpa using hx (by simp)

theorem jsTrimList_eq (l : List Char) :
    jsTrimList l = List.rdropWhile isJsWhitespace (l.dropWhile isJsWhitespace) := rfl

theorem jsTrimList_idem (l : List Char) : jsTrimList (jsTrimList l) = jsTrimList l := by
  rw [jsTrimList_eq, jsTrimList_eq]
  have hfront :
      (List.rdropWhile isJsWhitespace (l.dropWhile isJsWhitespace)).dropWhile isJsWhitespace
        = List.rdropWhile isJsWhitespace (l.dropWhile isJsWhitespace) :=
    dropWhile_eq_self_of_prefix _ (dropWhile_dropWhile _ l) (List.rdropWhile_prefix _ _)
  rw [hfront, List.rdropWhile_idempotent]

theorem jsTrim_idem (s : String) : jsTrim (jsTrim s) = jsTrim s :=
  congrArg String.mk (jsTrimList_idem s.data)

theorem toNumberOrNull_trim (w : String) :
    toNumberOrNull (jsTrim w) = toNumberOrNull w := by
  simp only [toNumberOrNull, jsTrim_idem]

theorem jsOrString_empty (a : String) : jsOrString a "" = a := by
  unfold jsOrString
  split
  · exact Eq.symm (by assumption)
  · rfl

theorem any_map_general {α β : Type} (f : α → β) (l : List α) (p : β → Bool) :
    (l.map f).any p = l.any (fun a => p (f a)) := by
  induction l with
  | nil => rfl
  | cons a t ih => simp [ih]

theorem ensureBaseline_any (ws : List Workout) :
    (ensureBaselineWorkout ws).any (fun w => decide (w.id = some BASELINE_WORKOUT_ID)) = true := by
  unfold ensureBaselineWorkout
  split
  · assumption
  · simp [baselineWorkoutDefault]

theorem hasBaseline_loadState (input : Option AppDoc) (now : Int) :
    hasBaselineWorkout (loadState input now).workouts = true := by
  cases input with
  | none => rfl
  | some st =>
    show ((ensureBaselineWorkout ((st.program.getD ⟨none⟩).workouts.getD [])).map
        normalizeWorkout).any (fun w => decide (w.id = some BASELINE_WORKOUT_ID)) = true
    rw [any_map_general]
    exact ensureBaseline_any _

/-- C4: after `loadState` the baseline workout id is always present
(injected at the front when the raw input lacks it); `deleteWorkout` on
the baseline id fails without mutating the document; and `deleteWorkout`
can never remove the baseline workout, so every reachable document keeps
the baseline workout. -/
theorem c4_baseline_invariant (input : Option AppDoc) (now : Int)
    (st : AppState) (wid : Option String) (now2 : Int) :
    hasBaselineWorkout (loadState input now).workouts = true ∧
    ((rawWorkoutsOfInput input).any
        (fun w => decide (w.id = some BASELINE_WORKOUT_ID)) = false →
      (loadState input now).workouts.head?.map RWorkout.id = some (some BASELINE_WORKOUT_ID)) ∧
    deleteWorkout st (some BASELINE_WORKOUT_ID) now2 = st ∧
    (hasBaselineWorkout st.workouts = true →
      hasBaselineWorkout (deleteWorkout st wid now2).workouts = true) := by
  refine ⟨hasBaseline_loadState input now, ?_, ?_, ?_⟩
  · intro h
    cases input with
    | none => rfl
    | some d =>
      have hraw : ((d.program.getD ⟨none⟩).workouts.getD []).any
          (fun w => decide (w.id = some BASELINE_WORKOUT_ID)) = false := h
      show ((ensureBaselineWorkout ((d.program.getD ⟨none⟩).workouts.getD [])).map
        normalizeWorkout).head?.map RWorkout.id = some (some BASELINE_WORKOUT_ID)
      unfold ensureBaselineWorkout
      rw [hraw]
      rfl
  · unfold deleteWorkout
    simp
  · intro hb
    unfold deleteWorkout
    split
    · exact hb
    · rename_i hneq
      split
      · show hasBaselineWorkout (st.workouts.filter _) = true
        obtain ⟨w, hw, hpw⟩ := List.any_eq_true.mp hb
        refine List.any_eq_true.mpr ⟨w, List.mem_filter.mpr ⟨hw, ?_⟩, hpw⟩
        have hid : w.id = some BASELINE_WORKOUT_ID := of_decide_eq_true hpw
        have hne : w.id ≠ wid := by
          rw [hid]
          exact fun hh => hneq hh.symm
        exact decide_eq_true hne
      · exact hb

theorem c4_baseline_invariant_witness :
    hasBaselineWorkout (loadState (some c4DocExample) 0).workouts = true ∧
    (loadState (some c4DocExample) 0).workouts.head?.map RWorkout.id
      = some (some BASELINE_WORKOUT_ID) ∧
    deleteWorkout (makeDefaultState 0) (some BASELINE_WORKOUT_ID) 1 = makeDefaultState 0 ∧
    hasBaselineWorkout (deleteWorkout (makeDefaultState 0) (some "w_a") 1).workouts = true := by
  obtain ⟨h1, h2, h3, h4⟩ :=
    c4_baseline_invariant (some c4DocExample) 0 (makeDefaultState 0) (some "w_a") 1
  exact ⟨h1, h2 (by decide), h3, h4 (by decide)⟩

/-- C5: `deleteWorkout` and `deleteExercise` leave `logsByDate` of the
resulting document exactly equal to that of the input document, for
every document and every target id. -/
theorem c5_deletes_preserve_logsByDate (st : AppState) (wid wid2 : Option String)
    (exId : String) (now now2 : Int) :
    (deleteWorkout st wid now).logsByDate = st.logsByDate ∧
    (deleteExercise st wid2 exId now2).logsByDate = st.logsByDate := by
  constructor
  · unfold deleteWorkout
    split
    · rfl
    · split <;> rfl
  · simp only [deleteExercise]
    split <;> rfl

/-- C7: `importJsonFromFile` accepts exactly the inputs whose parsed
value is an object with an object `program`, an array `program.workouts`
and an object `logsByDate`; every other input is rejected with one of
the two descriptive alert messages, and a rejected import leaves the
current in-memory document completely unchanged. -/
theorem c7_import_validation (current : AppDoc) (input : Option AppDoc) (now : Int) :
    (isValidImport input = true → (importJsonFromFile input now).isOk = true) ∧
    (isValidImport input = false →
      stateAfterImport current input now = current ∧
      (importJsonFromFile input now = .error invalidJsonMsg ∨
        importJsonFromFile input now = .error missingFieldsMsg)) := by
  cases input with
  | none => exact ⟨fun h => Bool.noConfusion h, fun _ => ⟨rfl, Or.inl rfl⟩⟩
  | some d =>
    obtain ⟨v, pr, lg, mt⟩ := d
    cases pr with
    | none => exact ⟨fun h => Bool.noConfusion h, fun _ => ⟨rfl, Or.inr rfl⟩⟩
    | some p =>
      obtain ⟨ws⟩ := p
      cases ws with
      | none => exact ⟨fun h => Bool.noConfusion h, fun _ => ⟨rfl, Or.inr rfl⟩⟩
      | some wlist =>
        cases lg with
        | none => exact ⟨fun h => Bool.noConfusion h, fun _ => ⟨rfl, Or.inr rfl⟩⟩
        | some logs => exact ⟨fun _ => rfl, fun h => Bool.noConfusion h⟩

theorem c7_import_validation_witness :
    stateAfterImport (docOfState (makeDefaultState 0)) (some c7DocExample) 1
        = docOfState (makeDefaultState 0) ∧
    (importJsonFromFile (some c7DocExample) 1 = .error invalidJsonMsg ∨
      importJsonFromFile (some c7DocExample) 1 = .error missingFieldsMsg) :=
  (c7_import_validation (docOfState (makeDefaultState 0)) (some c7DocExample) 1).2 (by decide)

theorem neglect_fold_cons (v : MuscleGroup → ℚ) (total : ℚ)
    (gs : List (MuscleGroup × String)) (a : Insight) (t : List Insight) :
    ∃ t2, gs.foldl (negStep v total) (a :: t) = a :: t2 := by
  induction gs generalizing t with
  | nil => exact ⟨t, rfl⟩
  | cons g gs ih =>
    show ∃ t2, gs.foldl (negStep v total) (negStep v total (a :: t) g) = a :: t2
    have hstep : negStep v total (a :: t) g = a :: t ∨
        ∃ ins, negStep v total (a :: t) g = a :: (t ++ [ins]) := by
      simp only [negStep]
      split
      · right
        exact ⟨_, by rw [List.cons_append]⟩
      · left
        rfl
    rcases hstep with h | ⟨ins, h⟩
    · rw [h]
      exact ih t
    · rw [h]
      exact ih _

/-- C8: whenever the total volume is at least 50, the pull volume is
strictly positive and the push volume strictly exceeds 1.5 times the
pull volume, the first insight emitted by `detectImbalances` is the
HIGH-severity push/pull imbalance and at most three insights are
returned. -/
theorem c8_push_pull_imbalance_first (v : MuscleGroup → ℚ)
    (h50 : 50 ≤ totalVolume v)
    (hpull : 0 < pullVolumeOf v)
    (hpush : pushVolumeOf v > 3 / 2 * pullVolumeOf v) :
    ((detectImbalances v).head?.map (fun i => (i.itype, i.severity, i.title))
        = some ( "IMBALANCE", "HIGH", "⚠️ Push/Pull Imbalance Detected")) ∧
    (detectImbalances v).length ≤ 3 := by
  have hcond : v .chest + v .anteriorDelt + v .triceps >
      (v .back + v .posteriorDelt + v .biceps) * (3 / 2) ∧
      v .back + v .posteriorDelt + v .biceps > 0 := by
    unfold pushVolumeOf pullVolumeOf at hpush
    unfold pullVolumeOf at hpull
    exact ⟨by linarith, by linarith⟩
  simp only [detectImbalances]
  rw [if_neg (not_lt.mpr h50), if_pos hcond, List.singleton_append]
  obtain ⟨t2, ht2⟩ := neglect_fold_cons v (totalVolume v) importantGroups _ _
  rw [ht2, List.cons_append]
  refine ⟨rfl, ?_⟩
  exact le_trans (le_of_eq (List.length_take _ _)) (min_le_left _ _)

theorem c8_push_pull_imbalance_first_witness :
    ((detectImbalances c8VolumesExample).head?.map
        (fun i => (i.itype, i.severity, i.title))
      = some ( "IMBALANCE", "HIGH", "⚠️ Push/Pull Imbalance Detected")) ∧
    (detectImbalances c8VolumesExample).length ≤ 3 :=
  c8_push_pull_imbalance_first c8VolumesExample
    (by norm_num [totalVolume, c8VolumesExample, allMuscleGroups])
    (by norm_num [pullVolumeOf, c8VolumesExample])
    (by norm_num [pushVolumeOf, pullVolumeOf, c8VolumesExample])

theorem toNumberOrNull_of_bw {w : String} (h : jsToUpper (jsTrim w) = "BW") :
    toNumberOrNull w = none := by
  unfold toNumberOrNull
  dsimp only
  split
  · rfl
  · rfl

theorem optMaxQ_none_right (a : Option ℚ) : optMaxQ a none = a := by
  cases a <;> rfl

theorem optMaxQ_assoc (a b c : Option ℚ) :
    optMaxQ (optMaxQ a b) c = optMaxQ a (optMaxQ b c) := by
  cases a <;> cases b <;> cases c <;> simp [optMaxQ, max_assoc]

theorem summStep_totalReps (acc : SummAcc) (s : WSet) :
    (summStep acc s).totalReps = acc.totalReps + s.reps.getD 0 := by
  obtain ⟨r, w⟩ := s
  unfold summStep
  cases r with
  | none =>
    dsimp only
    split
    · simp
    · split <;> simp
  | some r =>
    dsimp only
    split
    · simp
    · split <;> simp

theorem summStep_hasBW (acc : SummAcc) (s : WSet) :
    (summStep acc s).hasBW = (acc.hasBW || isBWSet s) := by
  obtain ⟨r, w⟩ := s
  unfold summStep isBWSet
  cases r with
  | none =>
    dsimp only
    split
    · rename_i h
      simp [decide_eq_true h]
    · rename_i h
      split <;> simp [decide_eq_false h]
  | some r =>
    dsimp only
    split
    · rename_i h
      simp [decide_eq_true h]
    · rename_i h
      split <;> simp [decide_eq_false h]

theorem summStep_maxNum (acc : SummAcc) (s : WSet) :
    (summStep acc s).maxNum = optMaxQ acc.maxNum (toNumberOrNull s.weight) := by
  obtain ⟨r, w⟩ := s
  unfold summStep
  cases r with
  | none =>
    dsimp only
    split
    · rename_i h
      rw [toNumberOrNull_of_bw h, optMaxQ_none_right]
    · rw [← toNumberOrNull_trim w]
      split
      · rename_i n hn
        rw [hn]
        cases acc.maxNum <;> rfl
      · rename_i hn
        rw [hn, optMaxQ_none_right]
  | some r =>
    dsimp only
    split
    · rename_i h
      rw [toNumberOrNull_of_bw h, optMaxQ_none_right]
    · rw [← toNumberOrNull_trim w]
      split
      · rename_i n hn
        rw [hn]
        cases acc.maxNum <;> rfl
      · rename_i hn
        rw [hn, optMaxQ_none_right]

theorem foldl_summStep_totalReps (l : List WSet) (acc : SummAcc) :
    (l.foldl summStep acc).totalReps = acc.totalReps + sumFiniteReps l := by
  induction l generalizing acc with
  | nil => simp [sumFiniteReps]
  | cons s t ih =>
    rw [List.foldl_cons, ih, summStep_totalReps]
    have hstep : sumFiniteReps (s :: t) = s.reps.getD 0 + sumFiniteReps t := by
      unfold sumFiniteReps
      cases hr : s.reps <;> simp [List.filterMap_cons, hr]
    rw [hstep]
    ring

theorem foldl_summStep_hasBW (l : List WSet) (acc : SummAcc) :
    (l.foldl summStep acc).hasBW = (acc.hasBW || l.any isBWSet) := by
  induction l generalizing acc with
  | nil => simp
  | cons s t ih =>
    rw [List.foldl_cons, ih, summStep_hasBW]
    simp [Bool.or_assoc]

theorem numericWeights_cons_max? (s : WSet) (t : List WSet) :
    (numericWeights (s :: t)).max? = optMaxQ (toNumberOrNull s.weight) (numericWeights t).max? := by
  unfold numericWeights
  rw [List.filterMap_cons]
  cases hn : toNumberOrNull s.weight with
  | none => rfl
  | some x =>
    cases hL : List.filterMap (fun s => toNumberOrNull s.weight) t with
    | nil => rfl
    | cons y u =>
      show ((x :: y :: u).max?) = optMaxQ (some x) ((y :: u).max?)
      rw [List.max?_cons, List.max?_cons]
      rfl

theorem foldl_summStep_maxNum (l : List WSet) (acc : SummAcc) :
    (l.foldl summStep acc).maxNum = optMaxQ acc.maxNum (numericWeights l).max? := by
  induction l generalizing acc with
  | nil => rw [List.foldl_nil]; exact (optMaxQ_none_right _).symm
  | cons s t ih =>
    rw [List.foldl_cons, ih, summStep_maxNum, numericWeights_cons_max?, optMaxQ_assoc]

theorem summDayStep_eq (ex sk ek : String) (acc : SummAcc) (p : String × DayLog) :
    summDayStep ex sk ek acc p =
      (if isValidDateKey p.1 && inRangeInclusive p.1 sk ek then entrySets ex p else []).foldl
        summStep acc := by
  by_cases hc : (isValidDateKey p.1 && inRangeInclusive p.1 sk ek) = true
  · rw [if_pos hc]
    unfold summDayStep
    rw [if_pos hc]
    unfold entrySets
    cases hl : p.2.lookup ex with
    | none => rfl
    | some entry =>
      obtain ⟨os, onotes⟩ := entry
      cases os <;> rfl
  · rw [if_neg hc]
    unfold summDayStep
    rw [if_neg hc]
    rfl

theorem foldl_summDayStep (logs : Logs) (ex sk ek : String) (acc : SummAcc) :
    logs.foldl (summDayStep ex sk ek) acc = (setsInRange logs ex sk ek).foldl summStep acc := by
  induction logs generalizing acc with
  | nil => rfl
  | cons p t ih =>
    rw [List.foldl_cons, ih, summDayStep_eq]
    have hsr : setsInRange (p :: t) ex sk ek =
        (if isValidDateKey p.1 && inRangeInclusive p.1 sk ek then entrySets ex p else []) ++
          setsInRange t ex sk ek := rfl
    rw [hsr, List.foldl_append]

/-- The fold of `computeExerciseSummary` is exactly the declarative
summary of all in-range sets. -/
theorem summary_eq_spec (st : AppState) (ex sk ek : String) (u : UnitSpec) :
    computeExerciseSummary st ex sk ek u =
      ⟨displayTotal u (sumFiniteReps (setsInRange st.logsByDate ex sk ek)),
        specMaxWeight (setsInRange st.logsByDate ex sk ek)⟩ := by
  unfold computeExerciseSummary
  dsimp only
  rw [foldl_summDayStep]
  rw [foldl_summStep_totalReps, foldl_summStep_hasBW, foldl_summStep_maxNum]
  show SummaryResult.mk _ _ = _
  have h1 : (⟨0, none, false⟩ : SummAcc).totalReps + sumFiniteReps (setsInRange st.logsByDate ex sk ek)
      = sumFiniteReps (setsInRange st.logsByDate ex sk ek) := by
    show 0 + _ = _
    ring
  have h2 : optMaxQ (⟨0, none, false⟩ : SummAcc).maxNum (numericWeights (setsInRange st.logsByDate ex sk ek)).max?
      = (numericWeights (setsInRange st.logsByDate ex sk ek)).max? := rfl
  have h3 : ((⟨0, none, false⟩ : SummAcc).hasBW || (setsInRange st.logsByDate ex sk ek).any isBWSet)
      = (setsInRange st.logsByDate ex sk ek).any isBWSet := Bool.false_or _
  rw [h1, h2, h3]
  unfold displayTotal specMaxWeight formatMaxWeight
  cases (numericWeights (setsInRange st.logsByDate ex sk ek)).max? <;> rfl

theorem roundTo2_zero : roundTo2 0 = 0 := by
  unfold roundTo2
  rw [if_neg (lt_irrefl 0)]
  norm_num

theorem displayTotal_zero (u : UnitSpec) : displayTotal u 0 = 0 := by
  unfold displayTotal
  split
  · exact roundTo2_zero
  · show ((⌊(0 : ℚ)⌋ : ℤ) : ℚ) = 0
    norm_num

/-- C1: `computeExerciseSummary` aggregates exactly the sets stored under
well-formed date keys lexicographically inside the inclusive range:
`maxWeight` is the numeric maximum of the strictly-numeric weights seen
in range when one exists, else the bodyweight marker when a bodyweight
set was seen, else the no-data sentinel; `totalQuantity` is the sum of
the finite quantities, floored unless the unit allows decimals and then
rounded to two decimal places; and a range with zero contributing
entries yields total `0` and the sentinel. -/
theorem c1_summary_spec (st : AppState) (ex sk ek : String) (u : UnitSpec) :
    computeExerciseSummary st ex sk ek u =
      ⟨displayTotal u (sumFiniteReps (setsInRange st.logsByDate ex sk ek)),
        specMaxWeight (setsInRange st.logsByDate ex sk ek)⟩ ∧
    (setsInRange st.logsByDate ex sk ek = [] →
      computeExerciseSummary st ex sk ek u = ⟨0, .noDataW⟩) := by
  refine ⟨summary_eq_spec st ex sk ek u, fun h => ?_⟩
  rw [summary_eq_spec st ex sk ek u, h]
  have h0 : sumFiniteReps ([] : List WSet) = 0 := rfl
  rw [h0, displayTotal_zero]
  rfl

theorem c1_summary_spec_witness :
    computeExerciseSummary (makeDefaultState 0) "ex_pushups" "2024-01-01" "2024-12-31" repsUnit
      = ⟨0, .noDataW⟩ :=
  (c1_summary_spec (makeDefaultState 0) "ex_pushups" "2024-01-01" "2024-12-31" repsUnit).2 rfl

theorem sumFiniteReps_all_zero (L : List WSet) (h : ∀ s ∈ L, s = ⟨some 0, "BW"⟩) :
    sumFiniteReps L = 0 := by
  induction L with
  | nil => rfl
  | cons s t ih =>
    have hs := h s (List.mem_cons_self s t)
    have ht := ih (fun x hx => h x (List.mem_cons_of_mem s hx))
    unfold sumFiniteReps at ht ⊢
    rw [List.filterMap_cons, hs]
    simpa using ht

theorem numericWeights_all_bw (L : List WSet) (h : ∀ s ∈ L, s = ⟨some 0, "BW"⟩) :
    numericWeights L = [] := by
  induction L with
  | nil => rfl
  | cons s t ih =>
    have hs := h s (List.mem_cons_self s t)
    have ht := ih (fun x hx => h x (List.mem_cons_of_mem s hx))
    unfold numericWeights at ht ⊢
    rw [List.filterMap_cons, hs]
    have hbw : toNumberOrNull (WSet.weight ⟨some 0, "BW"⟩) = none := rfl
    rw [hbw]
    exact ht

theorem any_isBW_of_all (L : List WSet) (h : ∀ s ∈ L, s = ⟨some 0, "BW"⟩)
    (hne : L ≠ []) : L.any isBWSet = true := by
  cases L with
  | nil => exact absurd rfl hne
  | cons s t =>
    have hs := h s (List.mem_cons_self s t)
    refine List.any_eq_true.mpr ⟨s, List.mem_cons_self s t, ?_⟩
    rw [hs]
    rfl

/-- C9: when the only sets logged for an exercise inside the range are
the placeholder `{reps: 0, weight: "BW"}` that `saveLog` stores after
discarding every draft set, the summary returns total `0` with the
bodyweight marker rather than the no-data sentinel. -/
theorem c9_placeholder_observable (st : AppState) (ex sk ek : String) (u : UnitSpec)
    (hne : setsInRange st.logsByDate ex sk ek ≠ [])
    (hall : ∀ s ∈ setsInRange st.logsByDate ex sk ek, s = ⟨some 0, "BW"⟩) :
    computeExerciseSummary st ex sk ek u = ⟨0, .bwW⟩ := by
  have h1 := sumFiniteReps_all_zero _ hall
  have h2 := numericWeights_all_bw _ hall
  have h3 := any_isBW_of_all _ hall hne
  rw [summary_eq_spec, h1, displayTotal_zero]
  unfold specMaxWeight
  rw [h2, h3]
  rfl

theorem c9_placeholder_observable_witness :
    computeExerciseSummary c9StateExample "e1" "2024-01-01" "2024-12-31" repsUnit
      = ⟨0, .bwW⟩ := by
  have hsr : setsInRange c9StateExample.logsByDate "e1" "2024-01-01" "2024-12-31"
      = [⟨some 0, "BW"⟩] := by rfl
  refine c9_placeholder_observable c9StateExample "e1" "2024-01-01" "2024-12-31" repsUnit ?_ ?_
  · rw [hsr]
    exact List.cons_ne_nil _ _
  · rw [hsr]
    intro s hs
    simpa using hs

theorem roundTo2_nonneg {q : ℚ} (h : 0 ≤ q) : 0 ≤ roundTo2 q := by
  unfold roundTo2
  rw [if_neg (not_lt.mpr h)]
  have h1 : (0 : ℚ) ≤ q * 100 + 1 / 2 := by
    have := mul_nonneg h (by norm_num : (0 : ℚ) ≤ 100)
    linarith
  have h2 : (0 : ℤ) ≤ ⌊q * 100 + 1 / 2⌋ := Int.floor_nonneg.mpr h1
  have h3 : (0 : ℚ) ≤ (⌊q * 100 + 1 / 2⌋ : ℚ) := by exact_mod_cast h2
  exact div_nonneg h3 (by norm_num)

theorem roundTo2_nonpos {q : ℚ} (h : q ≤ 0) : roundTo2 q ≤ 0 := by
  unfold roundTo2
  split
  · rename_i hq
    have h1 : (0 : ℚ) ≤ (-q) * 100 + 1 / 2 := by nlinarith
    have h2 : (0 : ℤ) ≤ ⌊(-q) * 100 + 1 / 2⌋ := Int.floor_nonneg.mpr h1
    have h3 : (0 : ℚ) ≤ (⌊(-q) * 100 + 1 / 2⌋ : ℚ) := by exact_mod_cast h2
    have := div_nonneg h3 (by norm_num : (0 : ℚ) ≤ 100)
    linarith
  · rename_i hq
    have hq0 : q = 0 := le_antisymm h (not_lt.mp hq)
    subst hq0
    have : roundTo2 0 = 0 := roundTo2_zero
    unfold roundTo2 at this
    rw [if_neg (lt_irrefl 0)] at this
    rw [this]

theorem jsFloor_nonneg {q : ℚ} (h : 0 ≤ q) : 0 ≤ jsFloor q := by
  unfold jsFloor
  exact_mod_cast Int.floor_nonneg.mpr h

theorem jsFloor_nonpos {q : ℚ} (h : q ≤ 0) : jsFloor q ≤ 0 := by
  unfold jsFloor
  exact_mod_cast Int.floor_nonpos h

theorem cleanDraftSet_eq_spec (ad : Bool) (s : WSet) :
    cleanDraftSet ad s =
      ⟨some (specCleanQuantity ad s.reps), specNormalizeWeight s.weight⟩ := by
  obtain ⟨r, w⟩ := s
  unfold cleanDraftSet specCleanQuantity specNormalizeWeight
  dsimp only
  rw [jsOrString_empty]
  cases r with
  | none => rfl
  | some q =>
    dsimp only
    congr 1
    by_cases hq : q > 0
    · rw [if_pos hq]
      have hX : 0 ≤ (if ad then roundTo2 q else jsFloor q) := by
        split
        · exact roundTo2_nonneg (le_of_lt hq)
        · exact jsFloor_nonneg (le_of_lt hq)
      rw [max_eq_right hX]
    · rw [if_neg hq]
      have hq0 : q ≤ 0 := not_lt.mp hq
      have hX : (if ad then roundTo2 q else jsFloor q) ≤ 0 := by
        split
        · exact roundTo2_nonpos hq0
        · exact jsFloor_nonpos hq0
      rw [max_eq_left hX]

theorem cleanDraftSets_eq_spec (ad : Bool) (draft : List WSet) :
    cleanDraftSets ad draft =
      (draft.map (fun s =>
        (⟨some (specCleanQuantity ad s.reps), specNormalizeWeight s.weight⟩ : WSet))).filter
        isPositiveReps := by
  unfold cleanDraftSets
  have hf : cleanDraftSet ad = fun s : WSet =>
      (⟨some (specCleanQuantity ad s.reps), specNormalizeWeight s.weight⟩ : WSet) :=
    funext (cleanDraftSet_eq_spec ad)
  rw [hf]

theorem lookup_updAList_self {β : Type} (l : List (String × β)) (k : String) (v : β) :
    (updAList l k v).lookup k = some v := by
  induction l with
  | nil => simp [updAList, List.lookup]
  | cons p t ih =>
    obtain ⟨a, b⟩ := p
    unfold updAList
    by_cases h : a = k
    · rw [if_pos h]
      simp [List.lookup]
    · rw [if_neg h]
      have hka : (k == a) = false := beq_eq_false_iff_ne.mpr (Ne.symm h)
      simp [List.lookup, hka]
      exact ih

theorem lookup_updAList_ne {β : Type} (l : List (String × β)) (k k' : String) (v : β)
    (h : k' ≠ k) : (updAList l k v).lookup k' = l.lookup k' := by
  induction l with
  | nil =>
    simp [updAList, List.lookup, beq_eq_false_iff_ne.mpr h]
  | cons p t ih =>
    obtain ⟨a, b⟩ := p
    unfold updAList
    by_cases hak : a = k
    · rw [if_pos hak]
      subst hak
      simp [List.lookup, beq_eq_false_iff_ne.mpr h]
    · rw [if_neg hak]
      cases hka : (k' == a) with
      | true => simp [List.lookup, hka]
      | false =>
        simp [List.lookup, hka]
        exact ih

theorem saveLog_logsByDate (st : AppState) (dk exId : String) (draft : List WSet)
    (notes : String) (now : Int) :
    (saveLog st dk exId draft notes now).logsByDate
      = updAList st.logsByDate dk
          (updAList ((st.logsByDate.lookup dk).getD []) exId
            ⟨some (specNormalizeDraft (logUnitFor st exId).allowDecimal draft), some notes⟩) := by
  simp only [saveLog]
  unfold specNormalizeDraft
  rw [← cleanDraftSets_eq_spec]

/-- C2: `saveLog` stores for the `(date, exercise)` pair exactly the
spec-side normalization of the draft (quantities clamped and
floored/rounded per the unit, weights normalized to the bodyweight
marker or a numeric-only string, non-positive sets discarded, a single
placeholder when all sets were discarded) and leaves every other
`(date, exercise)` entry unchanged. -/
theorem c2_saveLog_normalization (st : AppState) (dk exId : String)
    (draft : List WSet) (notes : String) (now : Int) :
    lookup2 (saveLog st dk exId draft notes now).logsByDate dk exId
      = some ⟨some (specNormalizeDraft (logUnitFor st exId).allowDecimal draft), some notes⟩ ∧
    (∀ s ∈ specNormalizeDraft (logUnitFor st exId).allowDecimal draft,
      (s.weight = "BW" ∨ isNumericOnlyStr s.weight = true) ∧
      ∃ q, s.reps = some q ∧ 0 ≤ q ∧
        ((logUnitFor st exId).allowDecimal = false → ∃ n : ℤ, q = (n : ℚ))) ∧
    (∀ dk2 ex2, ¬(dk2 = dk ∧ ex2 = exId) →
      lookup2 (saveLog st dk exId draft notes now).logsByDate dk2 ex2
        = lookup2 st.logsByDate dk2 ex2) := by
  refine ⟨?_, ?_, ?_⟩
  · unfold lookup2
    rw [saveLog_logsByDate, lookup_updAList_self]
    dsimp only [Option.bind]
    rw [lookup_updAList_self]
  · intro s hs
    unfold specNormalizeDraft at hs
    dsimp only at hs
    split at hs
    · -- the placeholder set
      have hseq : s = ⟨some 0, "BW"⟩ := List.mem_singleton.mp hs
      subst hseq
      refine ⟨Or.inl rfl, 0, rfl, le_refl 0, fun _ => ⟨0, by norm_num⟩⟩
    · rcases List.mem_filter.mp hs with ⟨hmem, hpos⟩
      rcases List.mem_map.mp hmem with ⟨a, ha, hfa⟩
      obtain ⟨ar, aw⟩ := a
      subst hfa
      constructor
      · show specNormalizeWeight aw = "BW" ∨ isNumericOnlyStr (specNormalizeWeight aw) = true
        unfold specNormalizeWeight
        split
        · exact Or.inl rfl
        · refine Or.inr ?_
          unfold isNumericOnlyStr
          refine List.all_eq_true.mpr ?_
          intro c hc
          exact (List.mem_filter.mp hc).2
      · refine ⟨specCleanQuantity (logUnitFor st exId).allowDecimal ar, rfl, ?_, ?_⟩
        · unfold specCleanQuantity
          cases ar with
          | none => exact le_refl 0
          | some r => exact le_max_left 0 _
        · intro had
          unfold specCleanQuantity
          cases ar with
          | none => exact ⟨0, by norm_num⟩
          | some r =>
            rw [had]
            dsimp only
            rw [if_neg (by exact Bool.false_ne_true)]
            rcases le_total 0 (jsFloor r) with h | h
            · exact ⟨⌊r⌋, by rw [max_eq_right h]; rfl⟩
            · exact ⟨0, by rw [max_eq_left h]; norm_num⟩
  · intro dk2 ex2 hne
    unfold lookup2
    rw [saveLog_logsByDate]
    by_cases hdk : dk2 = dk
    · subst hdk
      have hex : ex2 ≠ exId := fun he => hne ⟨rfl, he⟩
      rw [lookup_updAList_self]
      dsimp only [Option.bind]
      rw [lookup_updAList_ne _ _ _ _ hex]
      cases hl : st.logsByDate.lookup dk2 with
      | none => rfl
      | some d0 => rfl
    · rw [lookup_updAList_ne _ _ _ _ hdk]

theorem c2_saveLog_normalization_witness :
    lookup2 (saveLog (makeDefaultState 0) "2024-01-03" "ex_pushups"
        [⟨some 5, "185"⟩, ⟨some 0, "BW"⟩] "hi" 7).logsByDate "2024-01-04" "ex_pushups"
      = lookup2 (makeDefaultState 0).logsByDate "2024-01-04" "ex_pushups" :=
  (c2_saveLog_normalization (makeDefaultState 0) "2024-01-03" "ex_pushups"
    [⟨some 5, "185"⟩, ⟨some 0, "BW"⟩] "hi" 7).2.2 "2024-01-04" "ex_pushups" (by decide)

theorem mem_classifyExercise_of_keyword (name : String) (g : MuscleGroup) (kws : List String)
    (hg : (g, kws) ∈ MUSCLE_GROUPS) (kw : String) (hkw : kw ∈ kws)
    (h : jsIncludes (jsToLower name) kw = true) : g ∈ classifyExercise name := by
  unfold classifyExercise
  dsimp only
  have hmem : g ∈ MUSCLE_GROUPS.filterMap (fun gk =>
      if gk.2.any (fun keyword => jsIncludes (jsToLower name) keyword) = true then some gk.1
      else none) := by
    refine List.mem_filterMap.mpr ⟨(g, kws), hg, ?_⟩
    have hany : kws.any (fun keyword => jsIncludes (jsToLower name) keyword) = true :=
      List.any_eq_true.mpr ⟨kw, hkw, h⟩
    dsimp only
    rw [if_pos hany]
  rw [if_pos (List.length_pos.mpr (List.ne_nil_of_mem hmem))]
  exact hmem

/-- C10: every exercise name containing "raise" (case-insensitively) is
classified into CALVES, because "raise" is a CALVES keyword; "Lateral
Raise" in particular lands in both LATERAL_DELT and CALVES, and the
volume-aggregation step therefore adds its reps to the CALVES running
total. -/
theorem c10_raise_classifies_calves (name : String)
    (h : jsIncludes (jsToLower name) "raise" = true) :
    MuscleGroup.calves ∈ classifyExercise name ∧
    MuscleGroup.lateralDelt ∈ classifyExercise "Lateral Raise" ∧
    MuscleGroup.calves ∈ classifyExercise "Lateral Raise" ∧
    (∀ (v : MuscleGroup → ℚ) (amount : ℚ),
      addVolume v (classifyExercise name) amount MuscleGroup.calves
        = v MuscleGroup.calves + amount) ∧
    (analyzeWorkoutBalance c10StateExample "2024-01-01" "2024-12-31").muscleGroupVolume
      MuscleGroup.calves = 15 := by
  have h1 : MuscleGroup.calves ∈ classifyExercise name :=
    mem_classifyExercise_of_keyword name MuscleGroup.calves [ "calf", "calves", "raise"]
      (by decide) "raise" (by decide) h
  have hcls : MuscleGroup.calves ∈ classifyExercise "Lateral Raise" :=
    mem_classifyExercise_of_keyword "Lateral Raise" MuscleGroup.calves
      [ "calf", "calves", "raise"] (by decide) "raise" (by decide) (by decide)
  refine ⟨h1, ?_, hcls, ?_, ?_⟩
  · exact mem_classifyExercise_of_keyword "Lateral Raise" MuscleGroup.lateralDelt
      [ "side delt", "lateral delt", "lateral raise"] (by decide) "lateral raise"
      (by decide) (by decide)
  · intro v amount
    unfold addVolume
    rw [if_pos h1]
  · simp only [analyzeWorkoutBalance, c10StateExample, exerciseIdToName, List.foldl_cons,
      List.foldl_nil, updAList, List.lookup, setsTotalReps]
    norm_num
    rw [if_pos (And.intro (by decide) (by decide))]
    unfold addVolume
    rw [if_pos hcls]
    norm_num

theorem c10_raise_classifies_calves_witness :
    MuscleGroup.calves ∈ classifyExercise "Lateral Raise" :=
  (c10_raise_classifies_calves "Lateral Raise" (by decide)).1

theorem jsStrLtList_irrefl : ∀ l : List Char, jsStrLtList l l = false
  | [] => rfl
  | a :: as => by
    unfold jsStrLtList
    rw [if_neg (lt_irrefl a), if_neg (lt_irrefl a)]
    exact jsStrLtList_irrefl as

theorem jsStrLtList_asymm : ∀ a b : List Char, jsStrLtList a b = true → jsStrLtList b a = false
  | [], [], h => by simp [jsStrLtList] at h
  | [], _ :: _, _ => rfl
  | _ :: _, [], h => by simp [jsStrLtList] at h
  | a :: as, b :: bs, h => by
    unfold jsStrLtList at h ⊢
    rcases lt_trichotomy a b with hab | hab | hab
    · rw [if_neg (lt_asymm hab), if_pos hab]
    · subst hab
      rw [if_neg (lt_irrefl a), if_neg (lt_irrefl a)] at h ⊢
      exact jsStrLtList_asymm as bs h
    · rw [if_neg (lt_asymm hab), if_pos hab] at h
      exact absurd h (by decide)

theorem jsStrLtList_trans : ∀ a b c : List Char,
    jsStrLtList a b = true → jsStrLtList b c = true → jsStrLtList a c = true
  | [], [], _, h1, _ => by simp [jsStrLtList] at h1
  | [], _ :: _, [], _, h2 => by simp [jsStrLtList] at h2
  | [], _ :: _, _ :: _, _, _ => rfl
  | _ :: _, [], _, h1, _ => by simp [jsStrLtList] at h1
  | _ :: _, _ :: _, [], _, h2 => by simp [jsStrLtList] at h2
  | a :: as, b :: bs, c :: cs, h1, h2 => by
    unfold jsStrLtList at h1 h2 ⊢
    rcases lt_trichotomy a b with hab | hab | hab
    · rcases lt_trichotomy b c with hbc | hbc | hbc
      · rw [if_pos (lt_trans hab hbc)]
      · subst hbc
        rw [if_pos hab]
      · rw [if_neg (lt_asymm hbc), if_pos hbc] at h2
        exact absurd h2 (by decide)
    · subst hab
      rw [if_neg (lt_irrefl a), if_neg (lt_irrefl a)] at h1
      rcases lt_trichotomy a c with hac | hac | hac
      · rw [if_pos hac]
      · subst hac
        rw [if_neg (lt_irrefl a), if_neg (lt_irrefl a)] at h2 ⊢
        exact jsStrLtList_trans as bs cs h1 h2
      · rw [if_neg (lt_asymm hac), if_pos hac] at h2
        exact absurd h2 (by decide)
    · rw [if_neg (lt_asymm hab), if_pos hab] at h1
      exact absurd h1 (by decide)

theorem jsStrLtList_connex : ∀ a b : List Char,
    jsStrLtList a b = false → jsStrLtList b a = false → a = b
  | [], [], _, _ => rfl
  | [], _ :: _, h1, _ => by simp [jsStrLtList] at h1
  | _ :: _, [], _, h2 => by simp [jsStrLtList] at h2
  | a :: as, b :: bs, h1, h2 => by
    unfold jsStrLtList at h1 h2
    rcases lt_trichotomy a b with hab | hab | hab
    · rw [if_pos hab] at h1
      exact absurd h1 (by decide)
    · subst hab
      rw [if_neg (lt_irrefl a), if_neg (lt_irrefl a)] at h1 h2
      rw [jsStrLtList_connex as bs h1 h2]
    · rw [if_pos hab] at h2
      exact absurd h2 (by decide)

theorem jsStrLt_irrefl (a : String) : jsStrLt a a = false :=
  jsStrLtList_irrefl a.data

theorem jsStrLt_asymm {a b : String} (h : jsStrLt a b = true) : jsStrLt b a = false :=
  jsStrLtList_asymm _ _ h

theorem jsStrLt_trans {a b c : String} (h1 : jsStrLt a b = true) (h2 : jsStrLt b c = true) :
    jsStrLt a c = true :=
  jsStrLtList_trans _ _ _ h1 h2

theorem jsStrLt_connex {a b : String} (h1 : jsStrLt a b = false) (h2 : jsStrLt b a = false) :
    a = b :=
  String.ext (jsStrLtList_connex a.data b.data h1 h2)

theorem descKeyOrder_total : ∀ a b : String, descKeyOrder a b ∨ descKeyOrder b a := by
  intro a b
  cases h : jsStrLt a b with
  | true => exact Or.inr (by simp [descKeyOrder, jsStrLe, jsStrLt_asymm h])
  | false => exact Or.inl (by simp [descKeyOrder, jsStrLe, h])

theorem descKeyOrder_trans : ∀ a b c : String,
    descKeyOrder a b → descKeyOrder b c → descKeyOrder a c := by
  intro a b c hab hbc
  have hab2 : jsStrLt a b = false := by simpa [descKeyOrder, jsStrLe] using hab
  have hbc2 : jsStrLt b c = false := by simpa [descKeyOrder, jsStrLe] using hbc
  suffices hac : jsStrLt a c = false by simp [descKeyOrder, jsStrLe, hac]
  cases hac : jsStrLt a c with
  | false => rfl
  | true =>
    cases hba : jsStrLt b a with
    | true =>
      have := jsStrLt_trans hba hac
      simp [hbc2] at this
    | false =>
      have heq : b = a := jsStrLt_connex hba hab2
      subst heq
      simp [hbc2] at hac

theorem scanPriorKeys_eq_find? (st : AppState) (ex : String) (l : List String) :
    scanPriorKeys st ex l
      = (l.find? (fun k => (getLoggedBefore st ex k).isSome)).bind (getLoggedBefore st ex) := by
  induction l with
  | nil => rfl
  | cons k ks ih =>
    unfold scanPriorKeys
    cases hk : getLoggedBefore st ex k with
    | some e =>
      have hp : (getLoggedBefore st ex k).isSome = true := by
        rw [hk]
        rfl
      rw [@List.find?_cons_of_pos String (fun k => (getLoggedBefore st ex k).isSome) k ks hp]
      dsimp only [Option.bind]
      rw [hk]
    | none =>
      have hp : ¬ (getLoggedBefore st ex k).isSome = true := by
        rw [hk]
        exact Bool.false_ne_true
      rw [@List.find?_cons_of_neg String (fun k => (getLoggedBefore st ex k).isSome) k ks hp]
      exact ih

theorem find?_eq_head?_filter {α : Type} (p : α → Bool) (l : List α) :
    l.find? p = (l.filter p).head? := by
  induction l with
  | nil => rfl
  | cons a t ih =>
    cases ha : p a with
    | true => rw [List.find?_cons_of_pos _ ha, List.filter_cons_of_pos ha, List.head?_cons]
    | false =>
      rw [List.find?_cons_of_neg _ (by simp [ha]), List.filter_cons_of_neg (by simp [ha])]
      exact ih

theorem foldl_maxKeyStep_some (t : List String) (m : String) :
    ∃ m2, t.foldl maxKeyStep (some m) = some m2 ∧ (m2 = m ∨ m2 ∈ t) ∧
      jsStrLt m2 m = false ∧ ∀ k ∈ t, jsStrLt m2 k = false := by
  induction t generalizing m with
  | nil =>
    exact ⟨m, rfl, Or.inl rfl, jsStrLt_irrefl m, fun k hk => absurd hk (List.not_mem_nil k)⟩
  | cons k t ih =>
    rw [List.foldl_cons]
    unfold maxKeyStep
    dsimp only
    by_cases hmk : jsStrLt m k = true
    · rw [if_pos hmk]
      obtain ⟨m2, heq, hmem, hm2k, hall⟩ := ih k
      refine ⟨m2, heq, ?_, ?_, ?_⟩
      · rcases hmem with rfl | hm
        · exact Or.inr (List.mem_cons_self m2 t)
        · exact Or.inr (List.mem_cons_of_mem k hm)
      · cases hcontra : jsStrLt m2 m with
        | false => rfl
        | true =>
          have := jsStrLt_trans hcontra hmk
          simp [hm2k] at this
      · intro k2 hk2
        rcases List.mem_cons.mp hk2 with rfl | hk2
        · exact hm2k
        · exact hall k2 hk2
    · rw [if_neg hmk]
      have hmkf : jsStrLt m k = false := by
        cases h2 : jsStrLt m k
        · rfl
        · exact absurd h2 hmk
      obtain ⟨m2, heq, hmem, hm2m, hall⟩ := ih m
      refine ⟨m2, heq, ?_, hm2m, ?_⟩
      · rcases hmem with rfl | hm
        · exact Or.inl rfl
        · exact Or.inr (List.mem_cons_of_mem k hm)
      · intro k2 hk2
        rcases List.mem_cons.mp hk2 with rfl | hk2
        · cases hcontra : jsStrLt m2 k2 with
          | false => rfl
          | true =>
            cases hmm2 : jsStrLt m m2 with
            | true =>
              have := jsStrLt_trans hmm2 hcontra
              simp [hmkf] at this
            | false =>
              have heq2 : m = m2 := jsStrLt_connex hmm2 hm2m
              subst heq2
              simp [hmkf] at hcontra
        · exact hall k2 hk2

theorem maxKey?_cons (a : String) (t : List String) :
    maxKey? (a :: t) = t.foldl maxKeyStep (some a) := rfl

theorem maxKey?_spec_none {l : List String} (h : maxKey? l = none) : l = [] := by
  cases l with
  | nil => rfl
  | cons a t =>
    obtain ⟨m2, heq, _, _, _⟩ := foldl_maxKeyStep_some t a
    rw [maxKey?_cons, heq] at h
    cases h

theorem maxKey?_spec_some {l : List String} {m : String} (h : maxKey? l = some m) :
    m ∈ l ∧ ∀ k ∈ l, jsStrLt m k = false := by
  cases l with
  | nil => cases h
  | cons a t =>
    obtain ⟨m2, heq, hmem, hm2a, hall⟩ := foldl_maxKeyStep_some t a
    rw [maxKey?_cons, heq] at h
    injection h with h
    subst h
    constructor
    · rcases hmem with rfl | hm
      · exact List.mem_cons_self _ _
      · exact List.mem_cons_of_mem a hm
    · intro k hk
      rcases List.mem_cons.mp hk with rfl | hk
      · exact hm2a
      · exact hall k hk

theorem maxKey?_congr (l1 l2 : List String) (h : ∀ x, x ∈ l1 ↔ x ∈ l2) :
    maxKey? l1 = maxKey? l2 := by
  cases h1 : maxKey? l1 with
  | none =>
    have h1n := maxKey?_spec_none h1
    subst h1n
    cases h2 : maxKey? l2 with
    | none => rfl
    | some m2 =>
      have hm := (maxKey?_spec_some h2).1
      exact absurd ((h m2).mpr hm) (List.not_mem_nil m2)
  | some m1 =>
    obtain ⟨hm1, hub1⟩ := maxKey?_spec_some h1
    cases h2 : maxKey? l2 with
    | none =>
      have h2n := maxKey?_spec_none h2
      subst h2n
      exact absurd ((h m1).mp hm1) (List.not_mem_nil m1)
    | some m2 =>
      obtain ⟨hm2, hub2⟩ := maxKey?_spec_some h2
      have e1 : jsStrLt m1 m2 = false := hub1 m2 ((h m2).mpr hm2)
      have e2 : jsStrLt m2 m1 = false := hub2 m1 ((h m1).mp hm1)
      rw [jsStrLt_connex e1 e2]

theorem foldl_maxKeyStep_stay (t : List String) (a : String)
    (hall : ∀ b ∈ t, jsStrLt a b = false) : t.foldl maxKeyStep (some a) = some a := by
  induction t with
  | nil => rfl
  | cons b t ih =>
    rw [List.foldl_cons]
    unfold maxKeyStep
    dsimp only
    rw [if_neg (by simp [hall b (List.mem_cons_self b t)])]
    exact ih (fun b2 hb2 => hall b2 (List.mem_cons_of_mem b hb2))

theorem head?_eq_maxKey?_of_sorted {l : List String} (h : l.Sorted descKeyOrder) :
    l.head? = maxKey? l := by
  cases l with
  | nil => rfl
  | cons a t =>
    rw [maxKey?_cons, List.head?_cons]
    have hall : ∀ b ∈ t, jsStrLt a b = false := by
      intro b hb
      have hd := (List.sorted_cons.mp h).1 b hb
      simpa [descKeyOrder, jsStrLe] using hd
    exact (foldl_maxKeyStep_stay t a hall).symm

/-- C3: the draft-opening lookup returns the existing entry for the
exact date when present; otherwise the entry at the greatest well-formed
date key strictly below the given key that holds a log with a sets array
for this exercise (the descending sort takes the first hit, which is
that greatest key); and when no prior entry exists the draft is one
default empty set. -/
theorem c3_open_draft_lookup (st : AppState) (ex dk : String) :
    openLogPrior st ex dk =
      (match lookup2 st.logsByDate dk ex with
       | some existing => some existing
       | none =>
         match maxKey? (priorHitKeys st ex dk) with
         | some k => getLoggedBefore st ex k
         | none => none) ∧
    (openLogPrior st ex dk = none →
      openLogDraftSets (openLogPrior st ex dk) = [⟨some 0, ""⟩]) := by
  constructor
  · unfold openLogPrior
    cases hex : lookup2 st.logsByDate dk ex with
    | some e => rfl
    | none =>
      unfold findMostRecentLogBefore
      dsimp only
      haveI : IsTotal String descKeyOrder := ⟨descKeyOrder_total⟩
      haveI : IsTrans String descKeyOrder := ⟨fun a b c => descKeyOrder_trans a b c⟩
      rw [scanPriorKeys_eq_find?, find?_eq_head?_filter]
      have hsorted : (((st.logsByDate.map Prod.fst).filter
          (fun k => isValidDateKey k && jsStrLt k dk)).insertionSort descKeyOrder).Sorted
            descKeyOrder :=
        List.sorted_insertionSort descKeyOrder _
      have hsortedf := List.Pairwise.filter
        (fun k => (getLoggedBefore st ex k).isSome) hsorted
      rw [head?_eq_maxKey?_of_sorted hsortedf]
      have hmemiff : ∀ x,
          x ∈ ((((st.logsByDate.map Prod.fst).filter
            (fun k => isValidDateKey k && jsStrLt k dk)).insertionSort descKeyOrder).filter
              (fun k => (getLoggedBefore st ex k).isSome)) ↔
          x ∈ priorHitKeys st ex dk := by
        intro x
        unfold priorHitKeys
        rw [List.mem_filter, List.mem_filter,
          (List.perm_insertionSort descKeyOrder _).mem_iff]
      rw [maxKey?_congr _ _ hmemiff]
      cases maxKey? (priorHitKeys st ex dk) <;> rfl
  · intro h
    rw [h]
    rfl

theorem c3_open_draft_lookup_witness :
    openLogDraftSets (openLogPrior (makeDefaultState 0) "e9" "2024-01-01") = [⟨some 0, ""⟩] :=
  (c3_open_draft_lookup (makeDefaultState 0) "e9" "2024-01-01").2 rfl

theorem ensureBaseline_of_has {ws : List Workout}
    (h : ws.any (fun w => decide (w.id = some BASELINE_WORKOUT_ID)) = true) :
    ensureBaselineWorkout ws = ws := by
  unfold ensureBaselineWorkout
  rw [if_pos h]

theorem map_id_of_eq {α : Type} (l : List α) (f : α → α) (h : ∀ a ∈ l, f a = a) :
    l.map f = l := by
  induction l with
  | nil => rfl
  | cons a t ih =>
    rw [List.map_cons, h a (List.mem_cons_self a t),
      ih (fun x hx => h x (List.mem_cons_of_mem a hx))]

theorem normalizeWorkout_idem_loose (w : Workout) :
    normalizeWorkout (looseOfWorkout (normalizeWorkout w)) = normalizeWorkout w := by
  have hBase : jsTrim "Baseline" = "Baseline" := by decide
  have hWork : jsTrim "Workout" = "Workout" := by decide
  unfold normalizeWorkout looseOfWorkout
  dsimp only
  cases hc : w.category with
  | none =>
    by_cases hb : w.id = some BASELINE_WORKOUT_ID <;> simp [hb, hBase, hWork]
  | some c =>
    by_cases hne : jsTrim c = ""
    · by_cases hb : w.id = some BASELINE_WORKOUT_ID <;> simp [hne, hb, hBase, hWork]
    · simp [hne, jsTrim_idem]

theorem loadState_docOfState (now : Int) (s : AppState)
    (hb : hasBaselineWorkout s.workouts = true)
    (hnorm : ∀ w ∈ s.workouts, normalizeWorkout (looseOfWorkout w) = w) :
    loadState (some (docOfState s)) now = { s with metaUpdatedAt := now } := by
  unfold loadState docOfState
  simp only [Option.getD_some]
  have h1 : (s.workouts.map looseOfWorkout).any
      (fun w => decide (w.id = some BASELINE_WORKOUT_ID)) = true := by
    rw [any_map_general]
    exact hb
  rw [ensureBaseline_of_has h1, List.map_map,
    map_id_of_eq s.workouts (normalizeWorkout ∘ looseOfWorkout) hnorm]

/-- C6: the load-time structural repair is idempotent: re-loading the
serialized form of an already-loaded document (at the same clock value)
changes nothing, for every loosely-typed input document, absent and
corrupt inputs included. -/
theorem c6_repair_idempotent (input : Option AppDoc) (now : Int) :
    loadState (some (docOfState (loadState input now))) now = loadState input now := by
  cases input with
  | none =>
    show loadState (some (docOfState (makeDefaultState now))) now = makeDefaultState now
    rw [loadState_docOfState now (makeDefaultState now)
      (show hasBaselineWorkout defaultWorkouts = true by decide)
      (show ∀ w ∈ defaultWorkouts, normalizeWorkout (looseOfWorkout w) = w by decide)]
    rfl
  | some st =>
    have hb := hasBaseline_loadState (some st) now
    have hnorm : ∀ w ∈ (loadState (some st) now).workouts,
        normalizeWorkout (looseOfWorkout w) = w := by
      intro w hw
      have hw2 : w ∈ (ensureBaselineWorkout
          ((st.program.getD ⟨none⟩).workouts.getD [])).map normalizeWorkout := hw
      rcases List.mem_map.mp hw2 with ⟨w0, _, rfl⟩
      exact normalizeWorkout_idem_loose w0
    rw [loadState_docOfState now _ hb hnorm]
    rfl
